import Mathlib

/-!
Verification of the Markdown-to-mrkdwn converter of `src/endpoints/slack.py`
(class `SlackMarkdownConverter`).

The Python code is shallowly embedded over `List Char`.  Lines never contain
a newline character (they come from splitting on `'\n'`), and Python's
Unicode-aware character classes (`\w`, `\d`, `str.strip`) are modelled on
their ASCII behaviour, which is the relevant fragment for this converter.
Python's salted `hash` is modelled by a deterministic polynomial hash: like
the original it maps equal table texts to equal placeholder tokens.
`str.encode(enc).decode(enc)` for the default UTF-8 encoding is the identity
on well-formed strings; the possibility that re-encoding raises (and is
caught by the top-level `except`) is modelled by an explicit `encodeOk`
flag on `Converter.convertFull`.
-/

namespace SlackMd

/-- Python whitespace (`str.strip`, `\s`), ASCII fragment. -/
def pyWsChar (c : Char) : Bool :=
  c = ' ' || c = '\t' || c = '\n' || c = '\r' || c = '\x0b' || c = '\x0c'

/-- Python word character (`\w`), ASCII fragment: alphanumeric or underscore. -/
def pyWordChar (c : Char) : Bool :=
  c.isAlphanum || c = '_'

/-- `str.lstrip()` on a character list. -/
def pyLstrip (l : List Char) : List Char := l.dropWhile pyWsChar

/-- `str.rstrip()` on a character list. -/
def pyRstrip (l : List Char) : List Char := (l.reverse.dropWhile pyWsChar).reverse

/-- `str.strip()` on a character list. -/
def pyStrip (l : List Char) : List Char := pyRstrip (pyLstrip l)

/-- `str.strip("|")`: remove every leading and trailing pipe character. -/
def stripPipes (l : List Char) : List Char :=
  ((l.dropWhile (· = '|')).reverse.dropWhile (· = '|')).reverse

/-- `str.split(sep)` for a one-character separator (Python semantics:
`"".split(c) = [""]`, empty pieces kept). -/
def splitCh (sep : Char) : List Char → List (List Char)
  | [] => [[]]
  | c :: rest =>
    if c = sep then [] :: splitCh sep rest
    else
      match splitCh sep rest with
      | [] => [[c]]
      | l :: ls => (c :: l) :: ls

/-- `str.split("\n")`. -/
def splitNL (l : List Char) : List (List Char) := splitCh '\n' l

/-- `"\n".join(lines)`. -/
def joinNL : List (List Char) → List Char
  | [] => []
  | [l] => l
  | l :: ls => l ++ '\n' :: joinNL ls

/-- `" | ".join(cells)`. -/
def joinCells : List (List Char) → List Char
  | [] => []
  | [c] => c
  | c :: cs => c ++ ' ' :: '|' :: ' ' :: joinCells cs

/-- Boolean prefix test on character lists (`str.startswith`). -/
def pfx : List Char → List Char → Bool
  | [], _ => true
  | _ :: _, [] => false
  | a :: as_, b :: bs => a = b && pfx as_ bs

/-- Boolean suffix test on character lists (`str.endswith`). -/
def sfx (p l : List Char) : Bool := pfx p.reverse l.reverse

/-- Boolean substring test. -/
def infixOf (p : List Char) : List Char → Bool
  | [] => pfx p []
  | c :: rest => pfx p (c :: rest) || infixOf p rest

/-- The backtick character (kept out of literals). -/
def btick : Char := Char.ofNat 96

/-- The literal triple-backtick fence marker. -/
def fenceMarker : List Char := [btick, btick, btick]

/-- `self.triple_start`. -/
def startSent : List Char := "%%BOLDITALIC_START%%".toList

/-- `self.triple_end`. -/
def endSent : List Char := "%%BOLDITALIC_END%%".toList

/-- The fixed prefix of every table placeholder token. -/
def placeholderHead : List Char := "%%TABLE_PLACEHOLDER_".toList

/-- The horizontal-rule replacement: ten box-drawing dashes. -/
def dashRun : List Char := "──────────".toList

/-- Deterministic stand-in for Python's `hash` on the table text (the real
hash is salted per process; both map equal inputs to equal tokens). -/
def pyHash (l : List Char) : Nat :=
  l.foldl (fun h c => (h * 1000003 + c.toNat) % 18446744073709551616) 5381

/-! ## Generic scanning substitution (the engine behind `pattern.sub`)

`re.sub` scans the subject left to right; at every position it attempts a
match, replaces the matched span and resumes after it, otherwise moves on by
one character.  Lookbehind inspects the character of the *original* subject
preceding the current position, so the driver threads that character along.
Every matcher consumes at least one character; `fuel` (instantiated with the
subject length plus one) makes the recursion structural. -/

/-- A matcher receives: whether the scan position is the start of the line
(`^` for the patterns below, as lines contain no newline), the original
character preceding the position (for lookbehind), and the remaining suffix.
It returns the replacement text and the number of consumed characters. -/
def Matcher : Type := Bool → Option Char → List Char → Option (List Char × Nat)

/-- The scanning driver for `pattern.sub`. -/
def runSub (m : Matcher) : Nat → Bool → Option Char → List Char → List Char
  | 0, _, _, cs => cs
  | _ + 1, _, _, [] => []
  | fuel + 1, atStart, prev, c :: rest =>
    match m atStart prev (c :: rest) with
    | some (repl, k) =>
      if k = 0 then c :: runSub m fuel false (some c) rest
      else repl ++ runSub m fuel false (((c :: rest).take k).getLast?) ((c :: rest).drop k)
    | none => c :: runSub m fuel false (some c) rest

/-- Apply a sub over a whole line. -/
def subLine (m : Matcher) (l : List Char) : List Char :=
  runSub m (l.length + 1) true none l

/-- `m` matches nowhere in the line (checked at every scan position the
driver can reach). -/
def scanClean (m : Matcher) : Bool → Option Char → List Char → Bool
  | _, _, [] => true
  | atStart, prev, c :: rest =>
    (m atStart prev (c :: rest)).isNone && scanClean m false (some c) rest

/-- `m` matches nowhere in the line, starting from the initial position. -/
def scanCleanTop (m : Matcher) (l : List Char) : Bool := scanClean m true none l

/-- Index of the first suffix satisfying `p` (used for the backtracking
search of a non-greedy `(.+?)` closing delimiter). -/
def suffIdx (p : List Char → Bool) : List Char → Option Nat
  | [] => none
  | c :: rest => if p (c :: rest) then some 0 else (suffIdx p rest).map (· + 1)

/-! ## The individual patterns

Each matcher mirrors one compiled regex of the source, on one line. -/

/-- Triple emphasis protection:
`(?<!\*)\*\*\*([^*\n]+?)\*\*\*(?!\*)` replaced by sentinel-wrapped group. -/
def mTriple : Matcher := fun _ prev cs =>
  if prev = some '*' then none
  else
    match cs with
    | '*' :: '*' :: '*' :: rest =>
      let content := rest.takeWhile fun c => c ≠ '*' && c ≠ '\n'
      if content.isEmpty then none
      else
        match rest.drop content.length with
        | '*' :: '*' :: '*' :: tail =>
          if tail.head? = some '*' then none
          else some (startSent ++ content ++ endSent, content.length + 6)
        | _ => none
    | _ => none

/-- Closing delimiter for the bold pattern: `\*\*(?!\*)`. -/
def boldCloseAt : List Char → Bool
  | '*' :: '*' :: t => t.head? ≠ some '*'
  | _ => false

/-- Bold: `(?<!\*)\*\*(.+?)\*\*(?!\*)` replaced by `*\1*`. -/
def mBold : Matcher := fun _ prev cs =>
  if prev = some '*' then none
  else
    match cs with
    | '*' :: '*' :: rest =>
      match rest with
      | [] => none
      | _ :: rest1 =>
        match (suffIdx boldCloseAt rest1).map (· + 1) with
        | some i =>
          if (rest.take i).all (· ≠ '\n') then
            some ('*' :: rest.take i ++ ['*'], i + 4)
          else none
        | none => none
    | _ => none

/-- Italic: `(?<!\*)\*([^*\n]+?)\*(?!\*)` replaced by `_\1_`. -/
def mItalic : Matcher := fun _ prev cs =>
  if prev = some '*' then none
  else
    match cs with
    | '*' :: rest =>
      let content := rest.takeWhile fun c => c ≠ '*' && c ≠ '\n'
      if content.isEmpty then none
      else
        match rest.drop content.length with
        | '*' :: tail =>
          if tail.head? = some '*' then none
          else some ('_' :: content ++ ['_'], content.length + 2)
        | _ => none
    | _ => none

/-- Closing delimiter for underline/strikethrough/inline code: a literal
two-character (or one-character) terminator with no lookaround. -/
def litCloseAt (t : List Char) : List Char → Bool := fun s => pfx t s

/-- Underline-as-bold: `__(.+?)__` replaced by `*\1*`. -/
def mUnder : Matcher := fun _ _ cs =>
  match cs with
  | '_' :: '_' :: rest =>
    match rest with
    | [] => none
    | _ :: rest1 =>
      match (suffIdx (litCloseAt ['_', '_']) rest1).map (· + 1) with
      | some i =>
        if (rest.take i).all (· ≠ '\n') then
          some ('*' :: rest.take i ++ ['*'], i + 4)
        else none
      | none => none
  | _ => none

/-- Strikethrough: `~~(.+?)~~` replaced by `~\1~`. -/
def mStrike : Matcher := fun _ _ cs =>
  match cs with
  | '~' :: '~' :: rest =>
    match rest with
    | [] => none
    | _ :: rest1 =>
      match (suffIdx (litCloseAt ['~', '~']) rest1).map (· + 1) with
      | some i =>
        if (rest.take i).all (· ≠ '\n') then
          some ('~' :: rest.take i ++ ['~'], i + 4)
        else none
      | none => none
  | _ => none

/-- Inline code: `` `(.+?)` `` replaced by itself (an identity rewrite). -/
def mCode : Matcher := fun _ _ cs =>
  match cs with
  | c0 :: rest =>
    if c0 = btick then
      match rest with
      | [] => none
      | _ :: rest1 =>
        match (suffIdx (litCloseAt [btick]) rest1).map (· + 1) with
        | some i =>
          if (rest.take i).all (· ≠ '\n') then
            some (btick :: rest.take i ++ [btick], i + 2)
          else none
        | none => none
    else none
  | [] => none

/-- Split off `(.+?)\)` at the head of `tail`: the url (nonempty, up to the
first closing parenthesis, newline-free) and the number of consumed
characters including the parenthesis. -/
def urlTake (tail : List Char) : Option (List Char × Nat) :=
  match tail with
  | [] => none
  | t0 :: t1 =>
    if t0 = '\n' then none
    else
      let pre := t1.takeWhile fun c => c ≠ ')' && c ≠ '\n'
      match t1.drop pre.length with
      | ')' :: _ => some (t0 :: pre, pre.length + 2)
      | _ => none

/-- Walk the backtracking search for `.*?\]\((.+?)\)` of the image pattern:
returns the alt-text length, the url and the characters consumed after the
`](`. -/
def imgWalk : List Char → Nat → Option (Nat × List Char × Nat)
  | [], _ => none
  | c :: rest, n =>
    if c = ']' && rest.head? = some '(' then
      match urlTake (rest.drop 1) with
      | some (url, k) => some (n, url, k)
      | none => imgWalk rest (n + 1)
    else if c = '\n' then none
    else imgWalk rest (n + 1)

/-- Images: `!\[.*?\]\((.+?)\)` replaced by `<\1>` (alt text dropped). -/
def mImage : Matcher := fun _ _ cs =>
  match cs with
  | '!' :: '[' :: rest =>
    match imgWalk rest 0 with
    | some (n, url, k) => some ('<' :: url ++ ['>'], n + k + 4)
    | none => none
  | _ => none

/-- Walk the backtracking search for `(.+?)\]\((.+?)\)` of the link pattern
(the link text must be nonempty, so the first position is forced into it). -/
def linkWalk : List Char → Nat → Option (Nat × List Char × Nat)
  | [], _ => none
  | c :: rest, n =>
    if c = ']' && rest.head? = some '(' && decide (n ≠ 0) then
      match urlTake (rest.drop 1) with
      | some (url, k) => some (n, url, k)
      | none => linkWalk rest (n + 1)
    else if c = '\n' then none
    else linkWalk rest (n + 1)

/-- Links: `\[(.+?)\]\((.+?)\)` replaced by `<\2|\1>`. -/
def mLink : Matcher := fun _ _ cs =>
  match cs with
  | '[' :: rest =>
    match linkWalk rest 0 with
    | some (n, url, k) => some ('<' :: url ++ '|' :: rest.take n ++ ['>'], n + k + 3)
    | none => none
  | _ => none

/-- Closing of the tilde-bold pattern: `\*\*(\s|$)`. -/
def tildeCloseAt : List Char → Bool
  | '*' :: '*' :: t =>
    match t.head? with
    | none => true
    | some c => pyWsChar c
  | _ => false

/-- Core of the tilde-bold pattern after the `(^|\s)` alternative chose the
group `g1`: `~\*\*(.+?)\*\*(\s|$)` replaced by `\1 *\2* \3`. -/
def tildeCore (g1 : List Char) (cs : List Char) : Option (List Char × Nat) :=
  match cs with
  | '~' :: '*' :: '*' :: rest =>
    match rest with
    | [] => none
    | _ :: rest1 =>
      match (suffIdx tildeCloseAt rest1).map (· + 1) with
      | some i =>
        if (rest.take i).all (· ≠ '\n') then
          let g3 : List Char :=
            match ((rest.drop i).drop 2).head? with
            | some c => [c]
            | none => []
          some (g1 ++ ' ' :: '*' :: rest.take i ++ '*' :: ' ' :: g3,
                g1.length + i + 5 + g3.length)
        else none
      | none => none
  | _ => none

/-- Bold with leading tilde: `(^|\s)~\*\*(.+?)\*\*(\s|$)` replaced by
`\1 *\2* \3` (the regex alternation tries `^` first). -/
def mTilde : Matcher := fun atStart _ cs =>
  match (if atStart then tildeCore [] cs else none) with
  | some r => some r
  | none =>
    match cs with
    | c :: rest => if pyWsChar c then tildeCore [c] rest else none
    | [] => none

/-- Sentinel resolution: `escape(start)(.*?)escape(end)` replaced by
`*_\1_*` (the group may be empty). -/
def mSentinel : Matcher := fun _ _ cs =>
  if pfx startSent cs then
    let rest := cs.drop startSent.length
    match suffIdx (fun s => pfx endSent s) rest with
    | some i =>
      if (rest.take i).all (· ≠ '\n') then
        some ('*' :: '_' :: rest.take i ++ ['_', '*'],
              startSent.length + i + endSent.length)
      else none
    | none => none
  else none

/-! ## The line-anchored patterns

Those patterns start with `^` (and, for headings and the horizontal rule,
end with `$`), so on a newline-free line they can match only once, at the
start; they are modelled as whole-line rewrites.  Each `...Split` function
returns the capture groups when the pattern matches. -/

/-- `^(\s*)- \[([ ])\] (.+)`: unchecked task item.  The groups are the
leading whitespace run and the nonempty text after the six-character
`- [ ] ` prefix. -/
def task1Split (l : List Char) : Option (List Char × List Char) :=
  let ws := l.takeWhile pyWsChar
  let r := l.drop ws.length
  if pfx ['-', ' ', '[', ' ', ']', ' '] r && decide (r.length > 6) then
    some (ws, r.drop 6)
  else none

/-- Replacement `\1• ☐ \3`. -/
def applyTask1 (l : List Char) : List Char :=
  match task1Split l with
  | some (ws, rest) => ws ++ '•' :: ' ' :: '☐' :: ' ' :: rest
  | none => l

/-- `^(\s*)- \[([xX])\] (.+)`: checked task item. -/
def task2Split (l : List Char) : Option (List Char × List Char) :=
  let ws := l.takeWhile pyWsChar
  let r := l.drop ws.length
  match (r.drop 3).head? with
  | some x =>
    if pfx ['-', ' ', '['] r && (x = 'x' || x = 'X') && pfx [']', ' '] (r.drop 4)
        && decide (r.length > 6) then
      some (ws, r.drop 6)
    else none
  | none => none

/-- Replacement `\1• ☑ \3`. -/
def applyTask2 (l : List Char) : List Char :=
  match task2Split l with
  | some (ws, rest) => ws ++ '•' :: ' ' :: '☑' :: ' ' :: rest
  | none => l

/-- `^(\s*)- (.+)`: unordered list item. -/
def bulletSplit (l : List Char) : Option (List Char × List Char) :=
  let ws := l.takeWhile pyWsChar
  let r := l.drop ws.length
  if pfx ['-', ' '] r && decide (r.length > 2) then some (ws, r.drop 2)
  else none

/-- Replacement `\1• \2`. -/
def applyBullet (l : List Char) : List Char :=
  match bulletSplit l with
  | some (ws, rest) => ws ++ '•' :: ' ' :: rest
  | none => l

/-- `^(\s*)(\d+)\. (.+)`: ordered list item (ASCII digits). -/
def orderedSplit (l : List Char) : Option (List Char × List Char × List Char) :=
  let ws := l.takeWhile pyWsChar
  let r := l.drop ws.length
  let ds := r.takeWhile Char.isDigit
  if !ds.isEmpty && pfx ['.', ' '] (r.drop ds.length)
      && decide (r.length > ds.length + 2) then
    some (ws, ds, (r.drop ds.length).drop 2)
  else none

/-- Replacement `\1\2. \3` — rebuilds the matched line unchanged. -/
def applyOrdered (l : List Char) : List Char :=
  match orderedSplit l with
  | some (ws, ds, rest) => ws ++ ds ++ '.' :: ' ' :: rest
  | none => l

/-- `^#..# (.+)$` for a heading of `k` hash marks. -/
def headSplit (k : Nat) (l : List Char) : Option (List Char) :=
  if pfx (List.replicate k '#' ++ [' ']) l then
    let rest := l.drop (k + 1)
    if rest.isEmpty then none else some rest
  else none

/-- Replacement `*\1*`. -/
def applyHeading (k : Nat) (l : List Char) : List Char :=
  match headSplit k l with
  | some rest => '*' :: rest ++ ['*']
  | none => l

/-- `^> (.+)`: blockquote — the replacement `> \1` rebuilds the line. -/
def quoteSplit (l : List Char) : Option (List Char) :=
  if pfx ['>', ' '] l && decide (l.length > 2) then some (l.drop 2) else none

/-- Replacement `> \1` (identity rewrite). -/
def applyQuote (l : List Char) : List Char :=
  match quoteSplit l with
  | some rest => '>' :: ' ' :: rest
  | none => l

/-- `^(---|\*\*\*|___)$`: horizontal rule. -/
def hrMatch (l : List Char) : Bool :=
  l = ['-', '-', '-'] || l = ['*', '*', '*'] || l = ['_', '_', '_']

/-- Replacement: the fixed dash run. -/
def applyHr (l : List Char) : List Char :=
  if hrMatch l then dashRun else l

/-! ## The per-line rule pipeline (`_convert_line`) -/

/-- The ordered rule list of `self.patterns`, applied in source order. -/
def rulesPass (l0 : List Char) : List Char :=
  let l := applyTask1 l0
  let l := applyTask2 l
  let l := applyBullet l
  let l := applyOrdered l
  let l := subLine mImage l
  let l := subLine mItalic l
  let l := applyHeading 6 l
  let l := applyHeading 5 l
  let l := applyHeading 4 l
  let l := applyHeading 3 l
  let l := applyHeading 2 l
  let l := applyHeading 1 l
  let l := subLine mTilde l
  let l := subLine mBold l
  let l := subLine mUnder l
  let l := subLine mLink l
  let l := subLine mCode l
  let l := applyQuote l
  let l := applyHr l
  subLine mStrike l

/-- The transformation applied to a line outside code blocks: triple-emphasis
protection, the ordered rules, sentinel resolution, and `rstrip`. -/
def transformLine (l : List Char) : List Char :=
  pyRstrip (subLine mSentinel (rulesPass (subLine mTriple l)))

/-- `re.match(r"^` ``` `(\w*)$", line)`: the whole line is a triple backtick
followed by an optional word-character tag. -/
def fenceTag (l : List Char) : Option (List Char) :=
  if pfx fenceMarker l then
    let rest := l.drop 3
    if rest.all pyWordChar then some rest else none
  else none

/-- `line.startswith("%%TABLE_PLACEHOLDER_") and line.endswith("%%")`. -/
def isPlaceholderLine (l : List Char) : Bool :=
  pfx placeholderHead l && sfx ['%', '%'] l

/-- `_convert_line`, returning the emitted line and the updated
`in_code_block` flag. -/
def convertLine (inCode : Bool) (line : List Char) : List Char × Bool :=
  if isPlaceholderLine line then (line, inCode)
  else
    match fenceTag line with
    | some lang =>
      let inCode' := !inCode
      if inCode' && !lang.isEmpty then (fenceMarker ++ lang, inCode')
      else (fenceMarker, inCode')
    | none =>
      if inCode then (line, inCode)
      else (transformLine line, inCode)

/-- The line loop `[self._convert_line(line) for line in lines]`, threading
the mutable `in_code_block` field. -/
def convertLines (inCode : Bool) : List (List Char) → List (List Char) × Bool
  | [] => ([], inCode)
  | l :: ls =>
    let (l', st) := convertLine inCode l
    let (ls', st') := convertLines st ls
    (l' :: ls', st')

/-! ## Table extraction (`_convert_tables`)

The multiline regex
`^\|(.+)\|\s*$\n^\|[-:| ]+\|\s*$(\n^\|.+\|\s*$)*`
is modelled line-wise.  Because `\s` also matches newlines, the `\s*$`
after a header or row can absorb whole whitespace-only lines, so a table
block is: a pipe-delimited line, optional whitespace-only lines, a
separator line, then greedily rows (each optionally preceded by
whitespace-only lines); trailing whitespace-only lines after the last row
are absorbed into the match as well.  The placeholder replaces the whole
matched span, which is always a run of complete lines. -/

/-- A line consisting purely of whitespace (absorbable by `\s*$`). -/
def wsOnlyLine (l : List Char) : Bool := l.all pyWsChar

/-- A line matching `^\|.+\|\s*$` within the line: header or data row. -/
def pipeLine (l : List Char) : Bool :=
  match l with
  | '|' :: _ =>
    let r := pyRstrip l
    decide (r.length ≥ 3) && (r.getLast? = some '|')
  | _ => false

/-- A line matching `^\|[-:| ]+\|\s*$`: the separator row. -/
def sepLine (l : List Char) : Bool :=
  match l with
  | '|' :: _ =>
    let r := pyRstrip l
    decide (r.length ≥ 3) && (r.getLast? = some '|') &&
      r.all fun c => c = '-' || c = ':' || c = '|' || c = ' '
  | _ => false

/-- Greedy consumption of the `(\n^\|.+\|\s*$)*` row group: returns the
lines absorbed into the match (rows and interleaved or trailing
whitespace-only lines) and the remaining lines. -/
def rowsTake (fuel : Nat) (ls : List (List Char)) :
    List (List Char) × List (List Char) :=
  match fuel with
  | 0 => ([], ls)
  | fuel + 1 =>
    let g := ls.takeWhile wsOnlyLine
    match ls.dropWhile wsOnlyLine with
    | [] => (g, [])
    | row :: r' =>
      if pipeLine row then
        let (more, rem) := rowsTake fuel r'
        (g ++ row :: more, rem)
      else (g, row :: r')

/-- `original_table.strip()` in line terms: the span starts with a pipe
(no leading whitespace), so only trailing whitespace is removed — drop
trailing whitespace-only lines and right-strip the last remaining line. -/
def stripSpan (span : List (List Char)) : List (List Char) :=
  match span.reverse.dropWhile wsOnlyLine with
  | [] => []
  | last :: revInit => (pyRstrip last :: revInit).reverse

/-- Cells of one table line: `line.strip("|").split("|")` with each cell
`strip()`ed. -/
def tableCells (l : List Char) : List (List Char) :=
  (splitCh '|' (stripPipes l)).map pyStrip

/-- `convert_table`: render the matched block — bold header cells joined by
`" | "`, then each data row joined by `" | "`; `table_lines[1]` (the
separator slot) is skipped. -/
def renderTable (span : List (List Char)) : List Char :=
  let tl := stripSpan span
  let headerLine := tl.headD []
  let headers := tableCells headerLine
  let dataLines := tl.drop 2
  let headerOut := joinCells (headers.map fun h => '*' :: h ++ ['*'])
  joinNL (headerOut :: dataLines.map fun ln => joinCells (tableCells ln))

/-- The placeholder token
`"%%TABLE_PLACEHOLDER_" + str(hash(original_table)) + "%%"`. -/
def makeKey (span : List (List Char)) : List Char :=
  placeholderHead ++ (Nat.repr (pyHash (joinNL span))).toList ++ ['%', '%']

/-- Assignment into the insertion-ordered `table_replacements` dict. -/
def upsert (m : List (List Char × List Char)) (k v : List Char) :
    List (List Char × List Char) :=
  if m.any (fun p => p.1 = k) then
    m.map fun p => if p.1 = k then (k, v) else p
  else m ++ [(k, v)]

/-- The `table_pattern.sub(convert_table, markdown)` scan over the line
list, accumulating the placeholder map in insertion order. -/
def tableScan (fuel : Nat) (acc : List (List Char × List Char)) :
    List (List Char) → List (List Char) × List (List Char × List Char)
  | ls =>
    match fuel with
    | 0 => (ls, acc)
    | fuel + 1 =>
      match ls with
      | [] => ([], acc)
      | l :: rest =>
        let gap := rest.takeWhile wsOnlyLine
        let afterGap := rest.dropWhile wsOnlyLine
        if pipeLine l && (match afterGap with
            | s :: _ => sepLine s
            | [] => false) then
          match afterGap with
          | s :: r' =>
            let (rows, rem) := rowsTake (r'.length + 1) r'
            let span := l :: gap ++ s :: rows
            let key := makeKey span
            let (out, accF) := tableScan fuel (upsert acc key (renderTable span)) rem
            (key :: out, accF)
          | [] => (l :: rest, acc)
        else
          let (out, accF) := tableScan fuel acc rest
          (l :: out, accF)

/-- `_convert_tables`: substitute every table block by its placeholder and
return the placeholder map. -/
def convertTablesL (md : List Char) : List Char × List (List Char × List Char) :=
  let ls := splitNL md
  let (out, map) := tableScan (ls.length + 1) [] ls
  (joinNL out, map)

/-- Python `str.replace(old, new)`: replace all occurrences left to right
(`old` is never empty here). -/
def pyReplaceAux (key val : List Char) : Nat → List Char → List Char
  | 0, s => s
  | _ + 1, [] => []
  | fuel + 1, c :: rest =>
    if pfx key (c :: rest) then
      if key.isEmpty then c :: pyReplaceAux key val fuel rest
      else val ++ pyReplaceAux key val fuel ((c :: rest).drop key.length)
    else c :: pyReplaceAux key val fuel rest

/-- Python `str.replace(old, new)`. -/
def pyReplace (key val s : List Char) : List Char :=
  pyReplaceAux key val (s.length + 1) s

/-! ## The converter object and `convert` -/

/-- The mutable state of a `SlackMarkdownConverter` instance: the
`in_code_block` flag and the `table_replacements` dict (the immutable
compiled rule list and the `encoding` field carry no state). -/
structure Converter where
  in_code_block : Bool
  table_replacements : List (List Char × List Char)
deriving DecidableEq, Repr

/-- A freshly constructed `SlackMarkdownConverter()`. -/
def Converter.init : Converter := ⟨false, []⟩

/-- The body of `convert`, with the possibility that the final
`result.encode(...).decode(...)` raises modelled by `encodeOk`: when it
does, the `except` handler returns the current value of the local
`markdown` variable — the stripped, table-substituted intermediate — and
the mutations to `self` performed so far are kept. -/
def Converter.convertFull (c : Converter) (encodeOk : Bool) (md : List Char) :
    List Char × Converter :=
  if md.isEmpty then ([], c)
  else
    let md1 := pyStrip md
    let (md2, map) := convertTablesL md1
    let lines := splitNL md2
    let (outLines, inCode') := convertLines c.in_code_block lines
    let joined := joinNL outLines
    let result := map.foldl (fun r kv => pyReplace kv.1 kv.2 r) joined
    let c' : Converter := ⟨inCode', map⟩
    if encodeOk then (result, c') else (md2, c')

/-- `convert` on an instance (re-encoding succeeds, as it always does for
well-formed text in the default UTF-8 encoding). -/
def Converter.convertL (c : Converter) (md : List Char) : List Char × Converter :=
  c.convertFull true md

/-- `SlackMarkdownConverter().convert(s)` — a fresh instance per call, as
the endpoint uses it. -/
def convert (s : String) : String :=
  ((Converter.init.convertL s.toList).1).asString

/-- `convert` on a fresh instance with the re-encoding outcome explicit. -/
def convertWithEncode (ok : Bool) (s : String) : String :=
  ((Converter.init.convertFull ok s.toList).1).asString

/-- The value the `except` handler returns when re-encoding fails: the
stripped input with table blocks already replaced by placeholders. -/
def faultFallback (s : String) : String :=
  ((convertTablesL (pyStrip s.toList)).1).asString

/-- `s.strip()` on strings. -/
def pyStripStr (s : String) : String := (pyStrip s.toList).asString

/-! ## Predicates describing inputs free of recognized markdown syntax -/

/-- A table match starts at the head of this line list. -/
def tableTrigger : List (List Char) → Bool
  | [] => false
  | l :: rest =>
    pipeLine l && (match rest.dropWhile wsOnlyLine with
      | s :: _ => sepLine s
      | [] => false)

/-- No table match starts anywhere in the line list. -/
def tableFree : List (List Char) → Bool
  | [] => true
  | l :: rest => !tableTrigger (l :: rest) && tableFree rest

/-- None of the 22 rewrite patterns (the triple-emphasis protection, the 20
ordered rules, the sentinel resolution) matches anywhere in the line. -/
def lineClean (l : List Char) : Bool :=
  scanCleanTop mTriple l && (task1Split l).isNone && (task2Split l).isNone &&
  (bulletSplit l).isNone && (orderedSplit l).isNone && scanCleanTop mImage l &&
  scanCleanTop mItalic l && (headSplit 6 l).isNone && (headSplit 5 l).isNone &&
  (headSplit 4 l).isNone && (headSplit 3 l).isNone && (headSplit 2 l).isNone &&
  (headSplit 1 l).isNone && scanCleanTop mTilde l && scanCleanTop mBold l &&
  scanCleanTop mUnder l && scanCleanTop mLink l && scanCleanTop mCode l &&
  (quoteSplit l).isNone && !(hrMatch l) && scanCleanTop mStrike l &&
  scanCleanTop mSentinel l

/-- The line is neither a fence marker nor matched by any rewrite rule. -/
def lineQuiet (l : List Char) : Bool := (fenceTag l).isNone && lineClean l

/-- The input contains no recognized markdown syntax: no rule pattern, no
fence marker and no table block matches anywhere in it. -/
def plainInput (s : String) : Bool :=
  let ls := splitNL (pyStrip s.toList)
  tableFree ls && ls.all lineQuiet

/-! ## Percent-freeness predicates (used by the amended C8) -/

/-- The line contains no percent character. -/
def noPct (l : List Char) : Bool := l.all fun c => c ≠ '%'

/-- The output contains a literal placeholder artifact: a table-placeholder
token prefix or a bold-italic sentinel. -/
def hasArtifact (s : String) : Bool :=
  infixOf placeholderHead s.toList || infixOf startSent s.toList ||
    infixOf endSent s.toList

/-- Replacements of a matcher keep lines percent-free. -/
def ReplClean (m : Matcher) : Prop :=
  ∀ aS prev cs repl k, noPct cs = true → m aS prev cs = some (repl, k) →
    noPct repl = true

/-- The input contains no percent character, no triple-emphasis match and
no table block: the conditions under which the converter can introduce no
unresolved placeholder text. -/
def pctSafe (s : String) : Bool :=
  let ls := splitNL (pyStrip s.toList)
  tableFree ls && ls.all fun l => noPct l && scanCleanTop mTriple l

/-! ## Sanity checks: concrete behaviours of the embedded converter -/

example : transformLine "**bold**".toList = "*bold*".toList := by decide
example : transformLine "*italic*".toList = "_italic_".toList := by decide
example : transformLine "***both***".toList = "*_both_*".toList := by decide
example : transformLine "**bold *and* italic**".toList = "*bold _and_ italic*".toList := by decide
example : transformLine "# Title".toList = "*Title*".toList := by decide
example : transformLine "## Two".toList = "*Two*".toList := by decide
example : transformLine "- [ ] todo".toList = "• ☐ todo".toList := by decide
example : transformLine "- [x] done".toList = "• ☑ done".toList := by decide
example : transformLine "[text](http://x)".toList = "<http://x|text>".toList := by decide
example : transformLine "---".toList = "──────────".toList := by decide
example : transformLine "~~x~~".toList = "~x~".toList := by decide
example : transformLine "![alt](http://u)".toList = "<http://u>".toList := by decide
example : transformLine "1. item".toList = "1. item".toList := by decide
example : transformLine "> q".toList = "> q".toList := by decide
example : transformLine "__u__".toList = "*u*".toList := by decide
example : transformLine "a ".toList = "a".toList := by decide
example : transformLine "***x![***](u)".toList = "%%BOLDITALIC_START%%x<u>".toList := by decide
example : fenceTag " ```".toList = none := by decide
example : fenceTag "``` ".toList = none := by decide
example : fenceTag "```py".toList = some "py".toList := by decide
example : fenceTag "```a-b".toList = none := by decide

example : convert "| A | B |\n|---|---|\n| 1 | 2 |" = "*A* | *B*\n1 | 2" := by decide
example : convert "# Title" = "*Title*" := by decide
example : convert "" = "" := by decide
example : convert "a \nb" = "a\nb" := by decide
example : convert "%%TABLE_PLACEHOLDER_0%%" = "%%TABLE_PLACEHOLDER_0%%" := by decide
example : convertWithEncode false "  a" = "a" := by decide
example : (Converter.init.convertL "```".toList).2.in_code_block = true := by decide
example :
    ((((Converter.init.convertL "```".toList).2).convertL "# Title".toList).1).asString
      = "# Title" := by decide

example : splitNL "a\nb".toList = ["a".toList, "b".toList] := by decide
example : splitNL "".toList = [[]] := by decide
example : splitNL "a\n".toList = ["a".toList, []] := by decide
example : pyStrip "  a b  ".toList = "a b".toList := by decide
example : stripPipes "| A | B |".toList = " A | B ".toList := by decide
example : splitCh '|' " A | B ".toList = [" A ".toList, " B ".toList] := by decide
example : sfx "%%".toList "%%TABLE_PLACEHOLDER_12%%".toList = true := by decide
example : infixOf "bc".toList "abcd".toList = true := by decide


/-! ## Identity lemmas: where nothing matches, every pass is the identity -/

theorem runSub_id (m : Matcher) :
    ∀ (cs : List Char) (fuel : Nat) (atStart : Bool) (prev : Option Char),
      scanClean m atStart prev cs = true → runSub m fuel atStart prev cs = cs := by
  intro cs
  induction cs with
  | nil => intro fuel _ _ _; cases fuel <;> rfl
  | cons c rest ih =>
    intro fuel atStart prev h
    cases fuel with
    | zero => rfl
    | succ fuel =>
      unfold scanClean at h
      rw [Bool.and_eq_true] at h
      obtain ⟨h1, h2⟩ := h
      rw [Option.isNone_iff_eq_none] at h1
      unfold runSub
      rw [h1]
      exact congrArg (c :: ·) (ih fuel false (some c) h2)

theorem subLine_id (m : Matcher) (l : List Char) (h : scanCleanTop m l = true) :
    subLine m l = l :=
  runSub_id m l (l.length + 1) true none h

theorem applyTask1_id (l : List Char) (h : (task1Split l).isNone = true) :
    applyTask1 l = l := by
  unfold applyTask1
  cases h' : task1Split l
  · rfl
  · rw [h'] at h; simp at h

theorem applyTask2_id (l : List Char) (h : (task2Split l).isNone = true) :
    applyTask2 l = l := by
  unfold applyTask2
  cases h' : task2Split l
  · rfl
  · rw [h'] at h; simp at h

theorem applyBullet_id (l : List Char) (h : (bulletSplit l).isNone = true) :
    applyBullet l = l := by
  unfold applyBullet
  cases h' : bulletSplit l
  · rfl
  · rw [h'] at h; simp at h

theorem applyOrdered_id (l : List Char) (h : (orderedSplit l).isNone = true) :
    applyOrdered l = l := by
  unfold applyOrdered
  cases h' : orderedSplit l
  · rfl
  · rw [h'] at h; simp at h

theorem applyHeading_id (k : Nat) (l : List Char) (h : (headSplit k l).isNone = true) :
    applyHeading k l = l := by
  unfold applyHeading
  cases h' : headSplit k l
  · rfl
  · rw [h'] at h; simp at h

theorem applyQuote_id (l : List Char) (h : (quoteSplit l).isNone = true) :
    applyQuote l = l := by
  unfold applyQuote
  cases h' : quoteSplit l
  · rfl
  · rw [h'] at h; simp at h

theorem applyHr_id (l : List Char) (h : hrMatch l = false) : applyHr l = l := by
  unfold applyHr
  rw [h]
  rfl

theorem rulesPass_id (l : List Char) (h : lineClean l = true) : rulesPass l = l := by
  unfold lineClean at h
  simp only [Bool.and_eq_true] at h
  obtain ⟨⟨⟨⟨⟨⟨⟨⟨⟨⟨⟨⟨⟨⟨⟨⟨⟨⟨⟨⟨⟨hTriple, h1⟩, h2⟩, h3⟩, h4⟩, hImg⟩, hIt⟩, h6⟩,
    h5⟩, h4h⟩, h3h⟩, h2h⟩, h1h⟩, hTl⟩, hB⟩, hU⟩, hL⟩, hC⟩, hQ⟩, hHr⟩, hSt⟩, hSe⟩ := h
  simp only [rulesPass, applyTask1_id l h1, applyTask2_id l h2, applyBullet_id l h3,
    applyOrdered_id l h4, subLine_id mImage l hImg, subLine_id mItalic l hIt,
    applyHeading_id 6 l h6, applyHeading_id 5 l h5, applyHeading_id 4 l h4h,
    applyHeading_id 3 l h3h, applyHeading_id 2 l h2h, applyHeading_id 1 l h1h,
    subLine_id mTilde l hTl, subLine_id mBold l hB, subLine_id mUnder l hU,
    subLine_id mLink l hL, subLine_id mCode l hC, applyQuote_id l hQ,
    applyHr_id l (by revert hHr; cases hrMatch l <;> simp),
    subLine_id mStrike l hSt]

theorem transformLine_clean (l : List Char) (h : lineClean l = true) :
    transformLine l = pyRstrip l := by
  have h' := h
  unfold lineClean at h'
  simp only [Bool.and_eq_true] at h'
  simp only [transformLine,
    subLine_id mTriple l h'.1.1.1.1.1.1.1.1.1.1.1.1.1.1.1.1.1.1.1.1.1,
    rulesPass_id l h, subLine_id mSentinel l h'.2]

theorem pyRstrip_eq_self_of_last {l : List Char}
    (h : ∀ c, l.reverse.head? = some c → pyWsChar c = false) : pyRstrip l = l := by
  unfold pyRstrip
  cases hr : l.reverse with
  | nil =>
    simpa using (List.reverse_eq_nil_iff.mp hr).symm
  | cons c t =>
    have hc := h c (by rw [hr]; rfl)
    rw [List.dropWhile_cons, if_neg (by simp [hc]), ← hr, l.reverse_reverse]

theorem placeholder_rstrip {l : List Char} (h : isPlaceholderLine l = true) :
    pyRstrip l = l := by
  unfold isPlaceholderLine at h
  rw [Bool.and_eq_true] at h
  have h2 := h.2
  unfold sfx at h2
  have hrev : (['%', '%'] : List Char).reverse = ['%', '%'] := rfl
  rw [hrev] at h2
  apply pyRstrip_eq_self_of_last
  intro c hc
  cases hr : l.reverse with
  | nil => rw [hr] at hc; exact absurd hc (by simp)
  | cons d t =>
    rw [hr] at hc h2
    unfold pfx at h2
    rw [Bool.and_eq_true] at h2
    have hd : ('%' : Char) = d := of_decide_eq_true h2.1
    simp only [List.head?] at hc
    cases hc
    rw [← hd]
    decide

theorem convertLine_quiet (l : List Char) (h : lineQuiet l = true) :
    convertLine false l = (pyRstrip l, false) := by
  unfold lineQuiet at h
  rw [Bool.and_eq_true] at h
  obtain ⟨hf, hc⟩ := h
  rw [Option.isNone_iff_eq_none] at hf
  cases hp : isPlaceholderLine l with
  | true => simp [convertLine, hp, placeholder_rstrip hp]
  | false =>
    simp only [convertLine, hp, hf, Bool.false_eq_true, if_false]
    rw [transformLine_clean l hc]

theorem convertLines_quiet :
    ∀ ls : List (List Char), ls.all lineQuiet = true →
      convertLines false ls = (ls.map pyRstrip, false) := by
  intro ls
  induction ls with
  | nil => intro; rfl
  | cons l rest ih =>
    intro h
    rw [List.all_cons, Bool.and_eq_true] at h
    unfold convertLines
    simp [convertLine_quiet l h.1, ih h.2]

theorem splitCh_ne_nil (sep : Char) : ∀ l : List Char, splitCh sep l ≠ [] := by
  intro l
  cases l with
  | nil => simp [splitCh]
  | cons c rest =>
    unfold splitCh
    by_cases hc : c = sep
    · simp [hc]
    · simp only [if_neg hc]
      cases splitCh sep rest <;> simp

theorem joinNL_cons_cons (c : Char) (l : List Char) (ls : List (List Char)) :
    joinNL ((c :: l) :: ls) = c :: joinNL (l :: ls) := by
  cases ls <;> rfl

theorem joinNL_splitNL : ∀ l : List Char, joinNL (splitNL l) = l := by
  intro l
  induction l with
  | nil => rfl
  | cons c rest ih =>
    unfold splitNL at *
    unfold splitCh
    by_cases hc : c = '\n'
    · subst hc
      simp only [if_pos rfl]
      cases hs : splitCh '\n' rest with
      | nil => exact absurd hs (splitCh_ne_nil '\n' rest)
      | cons p ps =>
        show joinNL ([] :: p :: ps) = '\n' :: rest
        show [] ++ '\n' :: joinNL (p :: ps) = '\n' :: rest
        rw [List.nil_append, ← hs, ih]
    · simp only [if_neg hc]
      cases hs : splitCh '\n' rest with
      | nil => exact absurd hs (splitCh_ne_nil '\n' rest)
      | cons p ps =>
        rw [joinNL_cons_cons, ← hs, ih]

theorem tableScan_free :
    ∀ (ls : List (List Char)) (fuel : Nat) (acc : List (List Char × List Char)),
      tableFree ls = true → tableScan fuel acc ls = (ls, acc) := by
  intro ls
  induction ls with
  | nil => intro fuel acc _; cases fuel <;> rfl
  | cons l rest ih =>
    intro fuel acc h
    unfold tableFree at h
    rw [Bool.and_eq_true] at h
    have ht : tableTrigger (l :: rest) = false := by
      have := h.1
      revert this
      cases tableTrigger (l :: rest) <;> simp
    cases fuel with
    | zero => rfl
    | succ fuel =>
      have ht' : (pipeLine l && (match List.dropWhile wsOnlyLine rest with
          | s :: _ => sepLine s
          | [] => false)) = false := ht
      simp only [tableScan, ht', Bool.false_eq_true, if_false]
      rw [ih fuel acc h.2]

theorem convertTablesL_free (md : List Char) (h : tableFree (splitNL md) = true) :
    convertTablesL md = (md, []) := by
  unfold convertTablesL
  simp only [tableScan_free (splitNL md) ((splitNL md).length + 1) [] h, joinNL_splitNL]

theorem convert_plain (s : String) (h : plainInput s = true) :
    convert s = (joinNL ((splitNL (pyStrip s.toList)).map pyRstrip)).asString := by
  unfold plainInput at h
  simp only [Bool.and_eq_true] at h
  obtain ⟨hT, hQ⟩ := h
  unfold convert Converter.convertL Converter.convertFull
  by_cases he : s.toList = []
  · rw [he] at hT hQ ⊢
    simp at hT hQ ⊢
    have h0 : lineQuiet [] = true := by decide
    rfl
  · have he' : s.toList.isEmpty = false := by
      cases hl : s.toList
      · exact absurd hl he
      · rfl
    simp only [he', Bool.false_eq_true, if_false,
      convertTablesL_free (pyStrip s.toList) hT,
      convertLines_quiet (splitNL (pyStrip s.toList)) hQ, Converter.init,
      List.foldl_nil, if_true]

/-! ## Percent-freeness: inputs without the placeholder alphabet

No rewrite rule except the triple-emphasis protection inserts a percent
character, and the table stage only introduces percent characters through
its placeholder keys, all of which are substituted away.  On inputs with no
percent character, no triple-emphasis match and no table block, the output
therefore contains no percent character at all — in particular no
placeholder artifact. -/

theorem noPct_iff {l : List Char} : noPct l = true ↔ ∀ c ∈ l, c ≠ '%' := by
  simp [noPct, List.all_eq_true]

theorem noPct_sub {l₁ l₂ : List Char} (hsub : l₁ ⊆ l₂) (h : noPct l₂ = true) :
    noPct l₁ = true := by
  rw [noPct_iff] at *
  exact fun c hc => h c (hsub hc)

theorem noPct_tail {c : Char} {l : List Char} (h : noPct (c :: l) = true) :
    noPct l = true :=
  noPct_sub (List.subset_cons_self c l) h

theorem runSub_noPct (m : Matcher) (hm : ReplClean m) :
    ∀ (fuel : Nat) (aS : Bool) (prev : Option Char) (cs : List Char),
      noPct cs = true → noPct (runSub m fuel aS prev cs) = true := by
  intro fuel
  induction fuel with
  | zero => intro _ _ cs h; exact h
  | succ fuel ih =>
    intro aS prev cs hcs
    cases cs with
    | nil => exact hcs
    | cons c rest =>
      unfold runSub
      cases hmm : m aS prev (c :: rest) with
      | none =>
        rw [noPct_iff]
        intro x hx
        rcases List.mem_cons.mp hx with h | h
        · subst h; exact (noPct_iff.mp hcs) x (List.mem_cons_self x rest)
        · exact (noPct_iff.mp (ih false (some c) rest (noPct_tail hcs))) x h
      | some p =>
        obtain ⟨repl, k⟩ := p
        by_cases hk : k = 0
        · subst hk
          simp only [if_pos rfl]
          rw [noPct_iff]
          intro x hx
          rcases List.mem_cons.mp hx with h | h
          · subst h; exact (noPct_iff.mp hcs) x (List.mem_cons_self x rest)
          · exact (noPct_iff.mp (ih false (some c) rest (noPct_tail hcs))) x h
        · simp only [if_neg hk]
          rw [noPct_iff]
          intro x hx
          rcases List.mem_append.mp hx with h | h
          · exact (noPct_iff.mp (hm aS prev (c :: rest) repl k hcs hmm)) x h
          · exact (noPct_iff.mp (ih false _ _
              (noPct_sub (List.drop_subset k (c :: rest)) hcs))) x h

theorem subLine_noPct (m : Matcher) (hm : ReplClean m) (l : List Char)
    (h : noPct l = true) : noPct (subLine m l) = true :=
  runSub_noPct m hm (l.length + 1) true none l h

theorem head?_mem {l : List Char} {a : Char} (h : l.head? = some a) : a ∈ l :=
  List.mem_of_mem_head? (by simp [h])

theorem takeWhile_sub (p : Char → Bool) (l : List Char) : l.takeWhile p ⊆ l :=
  List.IsPrefix.subset ( List.takeWhile_prefix p)

theorem mItalic_clean : ReplClean mItalic := by
  intro aS prev cs repl k hcs hm
  unfold mItalic at hm
  repeat' (first | split at hm | simp only [] at hm)
  all_goals try exact Option.noConfusion hm
  cases hm
  rw [noPct_iff]
  intro x hx
  rcases List.mem_cons.mp hx with rfl | hx'
  · decide
  · rcases List.mem_append.mp hx' with hx2 | hx3
    · exact (noPct_iff.mp hcs) x
        (List.mem_cons_of_mem _ (takeWhile_sub _ _ hx2))
    · rw [List.mem_singleton.mp hx3]; decide

theorem mBold_clean : ReplClean mBold := by
  intro aS prev cs repl k hcs hm
  unfold mBold at hm
  repeat' (first | split at hm | simp only [] at hm)
  all_goals try exact Option.noConfusion hm
  cases hm
  rw [noPct_iff]
  intro x hx
  rcases List.mem_cons.mp hx with rfl | hx'
  · decide
  · rcases List.mem_append.mp hx' with hx2 | hx3
    · exact (noPct_iff.mp hcs) x
        (List.mem_cons_of_mem _ (List.mem_cons_of_mem _ (List.take_subset _ _ hx2)))
    · rw [List.mem_singleton.mp hx3]; decide

theorem mUnder_clean : ReplClean mUnder := by
  intro aS prev cs repl k hcs hm
  unfold mUnder at hm
  repeat' (first | split at hm | simp only [] at hm)
  all_goals try exact Option.noConfusion hm
  cases hm
  rw [noPct_iff]
  intro x hx
  rcases List.mem_cons.mp hx with rfl | hx'
  · decide
  · rcases List.mem_append.mp hx' with hx2 | hx3
    · exact (noPct_iff.mp hcs) x
        (List.mem_cons_of_mem _ (List.mem_cons_of_mem _ (List.take_subset _ _ hx2)))
    · rw [List.mem_singleton.mp hx3]; decide

theorem mStrike_clean : ReplClean mStrike := by
  intro aS prev cs repl k hcs hm
  unfold mStrike at hm
  repeat' (first | split at hm | simp only [] at hm)
  all_goals try exact Option.noConfusion hm
  cases hm
  rw [noPct_iff]
  intro x hx
  rcases List.mem_cons.mp hx with rfl | hx'
  · decide
  · rcases List.mem_append.mp hx' with hx2 | hx3
    · exact (noPct_iff.mp hcs) x
        (List.mem_cons_of_mem _ (List.mem_cons_of_mem _ (List.take_subset _ _ hx2)))
    · rw [List.mem_singleton.mp hx3]; decide

theorem mCode_clean : ReplClean mCode := by
  intro aS prev cs repl k hcs hm
  unfold mCode at hm
  repeat' (first | split at hm | simp only [] at hm)
  all_goals try exact Option.noConfusion hm
  cases hm
  rw [noPct_iff]
  intro x hx
  rcases List.mem_cons.mp hx with rfl | hx'
  · decide
  · rcases List.mem_append.mp hx' with hx2 | hx3
    · exact (noPct_iff.mp hcs) x
        (List.mem_cons_of_mem _ (List.take_subset _ _ hx2))
    · rw [List.mem_singleton.mp hx3]; decide

theorem mSentinel_clean : ReplClean mSentinel := by
  intro aS prev cs repl k hcs hm
  unfold mSentinel at hm
  repeat' (first | split at hm | simp only [] at hm)
  all_goals try exact Option.noConfusion hm
  cases hm
  rw [noPct_iff]
  intro x hx
  rcases List.mem_cons.mp hx with rfl | hx'
  · decide
  · rcases List.mem_cons.mp hx' with rfl | hx2
    · decide
    · rcases List.mem_append.mp hx2 with hx3 | hx4
      · exact (noPct_iff.mp hcs) x
          ((List.drop_subset _ _) (List.take_subset _ _ hx3))
      · rcases List.mem_cons.mp hx4 with rfl | hx5
        · decide
        · rw [List.mem_singleton.mp hx5]; decide

theorem urlTake_sub {tail url : List Char} {k : Nat}
    (h : urlTake tail = some (url, k)) : url ⊆ tail := by
  unfold urlTake at h
  repeat' (first | split at h | simp only [] at h)
  all_goals try exact Option.noConfusion h
  cases h
  intro x hx
  rcases List.mem_cons.mp hx with rfl | hx'
  · exact List.mem_cons_self _ _
  · exact List.mem_cons_of_mem _ (takeWhile_sub _ _ hx')

theorem imgWalk_sub :
    ∀ (ls : List Char) (n a k : Nat) (url : List Char),
      imgWalk ls n = some (a, url, k) → url ⊆ ls := by
  intro ls
  induction ls with
  | nil => intro n a k url h; exact absurd h (by simp [imgWalk])
  | cons c rest ih =>
    intro n a k url h
    unfold imgWalk at h
    split at h
    · split at h
      · cases h
        exact fun x hx =>
          List.mem_cons_of_mem _ (List.drop_subset _ _ (urlTake_sub (by assumption) hx))
      · exact fun x hx => List.mem_cons_of_mem _ (ih _ _ _ _ h hx)
    · split at h
      · exact Option.noConfusion h
      · exact fun x hx => List.mem_cons_of_mem _ (ih _ _ _ _ h hx)

theorem linkWalk_sub :
    ∀ (ls : List Char) (n a k : Nat) (url : List Char),
      linkWalk ls n = some (a, url, k) → url ⊆ ls := by
  intro ls
  induction ls with
  | nil => intro n a k url h; exact absurd h (by simp [linkWalk])
  | cons c rest ih =>
    intro n a k url h
    unfold linkWalk at h
    split at h
    · split at h
      · cases h
        exact fun x hx =>
          List.mem_cons_of_mem _ (List.drop_subset _ _ (urlTake_sub (by assumption) hx))
      · exact fun x hx => List.mem_cons_of_mem _ (ih _ _ _ _ h hx)
    · split at h
      · exact Option.noConfusion h
      · exact fun x hx => List.mem_cons_of_mem _ (ih _ _ _ _ h hx)

theorem mImage_clean : ReplClean mImage := by
  intro aS prev cs repl k hcs hm
  unfold mImage at hm
  repeat' (first | split at hm | simp only [] at hm)
  all_goals try exact Option.noConfusion hm
  cases hm
  rw [noPct_iff]
  intro x hx
  rcases List.mem_cons.mp hx with rfl | hx'
  · decide
  · rcases List.mem_append.mp hx' with hx2 | hx3
    · exact (noPct_iff.mp hcs) x
        (List.mem_cons_of_mem _ (List.mem_cons_of_mem _
          (imgWalk_sub _ _ _ _ _ (by assumption) hx2)))
    · rw [List.mem_singleton.mp hx3]; decide

theorem mLink_clean : ReplClean mLink := by
  intro aS prev cs repl k hcs hm
  unfold mLink at hm
  repeat' (first | split at hm | simp only [] at hm)
  all_goals try exact Option.noConfusion hm
  cases hm
  rw [noPct_iff]
  intro x hx
  rcases List.mem_cons.mp hx with rfl | hx'
  · decide
  · rcases List.mem_append.mp hx' with hx2 | hx3
    · rcases List.mem_append.mp hx2 with hx4 | hx5
      · exact (noPct_iff.mp hcs) x
          (List.mem_cons_of_mem _ (linkWalk_sub _ _ _ _ _ (by assumption) hx4))
      · rcases List.mem_cons.mp hx5 with rfl | hx6
        · decide
        · exact (noPct_iff.mp hcs) x
            (List.mem_cons_of_mem _ (List.take_subset _ _ hx6))
    · rw [List.mem_singleton.mp hx3]; decide

theorem tildeLeft {g1 : List Char} {c1 : Char} {rest : List Char} {i : Nat}
    (hg : noPct g1 = true)
    (hcs : noPct ('~' :: '*' :: '*' :: c1 :: rest) = true) {x : Char}
    (hx : x ∈ g1 ++ ' ' :: '*' :: List.take i (c1 :: rest)) : x ≠ '%' := by
  rcases List.mem_append.mp hx with hg1 | hx3
  · exact (noPct_iff.mp hg) x hg1
  · rcases List.mem_cons.mp hx3 with rfl | hx4
    · decide
    · rcases List.mem_cons.mp hx4 with rfl | hx5
      · decide
      · exact (noPct_iff.mp hcs) x
          (List.mem_cons_of_mem _ (List.mem_cons_of_mem _
            (List.mem_cons_of_mem _ (List.take_subset _ _ hx5))))

theorem tildeCore_clean {g1 cs repl : List Char} {k : Nat}
    (hg : noPct g1 = true) (hcs : noPct cs = true)
    (hm : tildeCore g1 cs = some (repl, k)) : noPct repl = true := by
  unfold tildeCore at hm
  repeat' (first | split at hm | simp only [] at hm)
  all_goals try exact Option.noConfusion hm
  · -- the `(\s|$)` group captured a whitespace character
    rename_i c0 heq
    cases hm
    rw [noPct_iff]
    intro x hx
    rcases List.mem_append.mp hx with hx1 | hx2
    · exact tildeLeft hg hcs hx1
    · rcases List.mem_cons.mp hx2 with rfl | hx3
      · decide
      · rcases List.mem_cons.mp hx3 with rfl | hx4
        · decide
        · rcases List.mem_singleton.mp hx4 with rfl
          exact (noPct_iff.mp hcs) x
            (List.mem_cons_of_mem _ (List.mem_cons_of_mem _
              (List.mem_cons_of_mem _
                (List.drop_subset _ _ (List.drop_subset _ _ (head?_mem heq))))))
  · -- the `(\s|$)` group matched the end of the line
    cases hm
    rw [noPct_iff]
    intro x hx
    rcases List.mem_append.mp hx with hx1 | hx2
    · exact tildeLeft hg hcs hx1
    · rcases List.mem_cons.mp hx2 with rfl | hx3
      · decide
      · rcases List.mem_singleton.mp hx3 with rfl; decide

theorem mTilde_clean : ReplClean mTilde := by
  intro aS prev cs repl k hcs hm
  unfold mTilde at hm
  cases ha : (if aS then tildeCore [] cs else none) with
  | some r =>
    rw [ha] at hm
    simp only [] at hm
    cases hm
    by_cases haS : aS
    · rw [if_pos haS] at ha
      exact tildeCore_clean (by decide) hcs ha
    · rw [if_neg haS] at ha; exact Option.noConfusion ha
  | none =>
    rw [ha] at hm
    simp only [] at hm
    cases cs with
    | nil => exact Option.noConfusion hm
    | cons c rest =>
      by_cases hw : pyWsChar c = true
      · simp only [hw, if_true] at hm
        refine tildeCore_clean ?_ (noPct_tail hcs) hm
        rw [noPct_iff]
        intro x hx
        rcases List.mem_singleton.mp hx with rfl
        exact (noPct_iff.mp hcs) x (List.mem_cons_self _ _)
      · have hw' : pyWsChar c = false := by revert hw; cases pyWsChar c <;> simp
        simp only [hw', Bool.false_eq_true, if_false] at hm
        exact Option.noConfusion hm

theorem pyRstrip_sub (l : List Char) : pyRstrip l ⊆ l := by
  intro x hx
  unfold pyRstrip at hx
  exact (List.mem_reverse).mp
    ((List.dropWhile_suffix pyWsChar).subset ((List.mem_reverse).mp hx))

theorem task1Split_parts {l ws rest : List Char}
    (h : task1Split l = some (ws, rest)) :
    ws = l.takeWhile pyWsChar ∧
      rest = (l.drop (l.takeWhile pyWsChar).length).drop 6 := by
  unfold task1Split at h
  repeat' (first | simp only [] at h | split at h)
  · cases h; exact ⟨rfl, rfl⟩
  · exact Option.noConfusion h

theorem task2Split_parts {l ws rest : List Char}
    (h : task2Split l = some (ws, rest)) :
    ws = l.takeWhile pyWsChar ∧
      rest = (l.drop (l.takeWhile pyWsChar).length).drop 6 := by
  unfold task2Split at h
  repeat' (first | simp only [] at h | split at h)
  all_goals try exact Option.noConfusion h
  cases h; exact ⟨rfl, rfl⟩

theorem bulletSplit_parts {l ws rest : List Char}
    (h : bulletSplit l = some (ws, rest)) :
    ws = l.takeWhile pyWsChar ∧
      rest = (l.drop (l.takeWhile pyWsChar).length).drop 2 := by
  unfold bulletSplit at h
  repeat' (first | simp only [] at h | split at h)
  · cases h; exact ⟨rfl, rfl⟩
  · exact Option.noConfusion h

theorem orderedSplit_parts {l ws ds rest : List Char}
    (h : orderedSplit l = some (ws, ds, rest)) :
    ws = l.takeWhile pyWsChar ∧
      ds = (l.drop (l.takeWhile pyWsChar).length).takeWhile Char.isDigit ∧
      rest = ((l.drop (l.takeWhile pyWsChar).length).drop
        ((l.drop (l.takeWhile pyWsChar).length).takeWhile Char.isDigit).length).drop 2 := by
  unfold orderedSplit at h
  repeat' (first | simp only [] at h | split at h)
  · cases h; exact ⟨rfl, rfl, rfl⟩
  · exact Option.noConfusion h

theorem headSplit_parts {k : Nat} {l rest : List Char}
    (h : headSplit k l = some rest) : rest = l.drop (k + 1) := by
  unfold headSplit at h
  repeat' (first | simp only [] at h | split at h)
  all_goals try exact Option.noConfusion h
  cases h; rfl

theorem quoteSplit_parts {l rest : List Char}
    (h : quoteSplit l = some rest) : rest = l.drop 2 := by
  unfold quoteSplit at h
  repeat' (first | simp only [] at h | split at h)
  · cases h; rfl
  · exact Option.noConfusion h

theorem applyTask1_noPct (l : List Char) (h : noPct l = true) :
    noPct (applyTask1 l) = true := by
  cases hs : task1Split l with
  | none => simpa [applyTask1, hs] using h
  | some p =>
    obtain ⟨ws, rest⟩ := p
    obtain ⟨hws, hrest⟩ := task1Split_parts hs
    subst hws hrest
    simp only [applyTask1, hs]
    rw [noPct_iff]
    intro x hx
    rcases List.mem_append.mp hx with hx1 | hx2
    · exact (noPct_iff.mp h) x (takeWhile_sub _ _ hx1)
    · rcases List.mem_cons.mp hx2 with rfl | hx3
      · decide
      · rcases List.mem_cons.mp hx3 with rfl | hx4
        · decide
        · rcases List.mem_cons.mp hx4 with rfl | hx5
          · decide
          · rcases List.mem_cons.mp hx5 with rfl | hx6
            · decide
            · exact (noPct_iff.mp h) x
                (List.drop_subset _ _ (List.drop_subset _ _ hx6))

theorem applyTask2_noPct (l : List Char) (h : noPct l = true) :
    noPct (applyTask2 l) = true := by
  cases hs : task2Split l with
  | none => simpa [applyTask2, hs] using h
  | some p =>
    obtain ⟨ws, rest⟩ := p
    obtain ⟨hws, hrest⟩ := task2Split_parts hs
    subst hws hrest
    simp only [applyTask2, hs]
    rw [noPct_iff]
    intro x hx
    rcases List.mem_append.mp hx with hx1 | hx2
    · exact (noPct_iff.mp h) x (takeWhile_sub _ _ hx1)
    · rcases List.mem_cons.mp hx2 with rfl | hx3
      · decide
      · rcases List.mem_cons.mp hx3 with rfl | hx4
        · decide
        · rcases List.mem_cons.mp hx4 with rfl | hx5
          · decide
          · rcases List.mem_cons.mp hx5 with rfl | hx6
            · decide
            · exact (noPct_iff.mp h) x
                (List.drop_subset _ _ (List.drop_subset _ _ hx6))

theorem applyBullet_noPct (l : List Char) (h : noPct l = true) :
    noPct (applyBullet l) = true := by
  cases hs : bulletSplit l with
  | none => simpa [applyBullet, hs] using h
  | some p =>
    obtain ⟨ws, rest⟩ := p
    obtain ⟨hws, hrest⟩ := bulletSplit_parts hs
    subst hws hrest
    simp only [applyBullet, hs]
    rw [noPct_iff]
    intro x hx
    rcases List.mem_append.mp hx with hx1 | hx2
    · exact (noPct_iff.mp h) x (takeWhile_sub _ _ hx1)
    · rcases List.mem_cons.mp hx2 with rfl | hx3
      · decide
      · rcases List.mem_cons.mp hx3 with rfl | hx4
        · decide
        · exact (noPct_iff.mp h) x
            (List.drop_subset _ _ (List.drop_subset _ _ hx4))

theorem applyOrdered_noPct (l : List Char) (h : noPct l = true) :
    noPct (applyOrdered l) = true := by
  cases hs : orderedSplit l with
  | none => simpa [applyOrdered, hs] using h
  | some p =>
    obtain ⟨ws, ds, rest⟩ := p
    obtain ⟨hws, hds, hrest⟩ := orderedSplit_parts hs
    subst hws hds hrest
    simp only [applyOrdered, hs]
    rw [noPct_iff]
    intro x hx
    rcases List.mem_append.mp hx with hx1 | hx2
    · rcases List.mem_append.mp hx1 with hx3 | hx4
      · exact (noPct_iff.mp h) x (takeWhile_sub _ _ hx3)
      · exact (noPct_iff.mp h) x
          (List.drop_subset _ _ (takeWhile_sub _ _ hx4))
    · rcases List.mem_cons.mp hx2 with rfl | hx5
      · decide
      · rcases List.mem_cons.mp hx5 with rfl | hx6
        · decide
        · exact (noPct_iff.mp h) x
            (List.drop_subset _ _ (List.drop_subset _ _ (List.drop_subset _ _ hx6)))

theorem applyHeading_noPct (k : Nat) (l : List Char) (h : noPct l = true) :
    noPct (applyHeading k l) = true := by
  cases hs : headSplit k l with
  | none => simpa [applyHeading, hs] using h
  | some rest =>
    have hrest := headSplit_parts hs
    subst hrest
    simp only [applyHeading, hs]
    rw [noPct_iff]
    intro x hx
    rcases List.mem_cons.mp hx with rfl | hx1
    · decide
    · rcases List.mem_append.mp hx1 with hx2 | hx3
      · exact (noPct_iff.mp h) x (List.drop_subset _ _ hx2)
      · rw [List.mem_singleton.mp hx3]; decide

theorem applyQuote_noPct (l : List Char) (h : noPct l = true) :
    noPct (applyQuote l) = true := by
  cases hs : quoteSplit l with
  | none => simpa [applyQuote, hs] using h
  | some rest =>
    have hrest := quoteSplit_parts hs
    subst hrest
    simp only [applyQuote, hs]
    rw [noPct_iff]
    intro x hx
    rcases List.mem_cons.mp hx with rfl | hx1
    · decide
    · rcases List.mem_cons.mp hx1 with rfl | hx2
      · decide
      · exact (noPct_iff.mp h) x (List.drop_subset _ _ hx2)

theorem applyHr_noPct (l : List Char) (h : noPct l = true) :
    noPct (applyHr l) = true := by
  unfold applyHr
  split
  · decide
  · exact h

theorem rulesPass_noPct (l : List Char) (h : noPct l = true) :
    noPct (rulesPass l) = true := by
  unfold rulesPass
  exact subLine_noPct mStrike mStrike_clean _
    (applyHr_noPct _ (applyQuote_noPct _
      (subLine_noPct mCode mCode_clean _
        (subLine_noPct mLink mLink_clean _
          (subLine_noPct mUnder mUnder_clean _
            (subLine_noPct mBold mBold_clean _
              (subLine_noPct mTilde mTilde_clean _
                (applyHeading_noPct 1 _ (applyHeading_noPct 2 _
                  (applyHeading_noPct 3 _ (applyHeading_noPct 4 _
                    (applyHeading_noPct 5 _ (applyHeading_noPct 6 _
                      (subLine_noPct mItalic mItalic_clean _
                        (subLine_noPct mImage mImage_clean _
                          (applyOrdered_noPct _ (applyBullet_noPct _
                            (applyTask2_noPct _ (applyTask1_noPct l h)))))))))))))))))))

theorem transformLine_noPct (l : List Char) (hT : scanCleanTop mTriple l = true)
    (h : noPct l = true) : noPct (transformLine l) = true := by
  unfold transformLine
  rw [subLine_id mTriple l hT]
  exact noPct_sub (pyRstrip_sub _)
    (subLine_noPct mSentinel mSentinel_clean _ (rulesPass_noPct l h))

theorem fenceTag_parts {l lang : List Char} (h : fenceTag l = some lang) :
    lang = l.drop 3 := by
  unfold fenceTag at h
  repeat' (first | simp only [] at h | split at h)
  all_goals try exact Option.noConfusion h
  cases h; rfl

theorem convertLine_noPct (inCode : Bool) (l : List Char)
    (hT : scanCleanTop mTriple l = true) (h : noPct l = true) :
    ∀ out st, convertLine inCode l = (out, st) → noPct out = true := by
  intro out st heq
  unfold convertLine at heq
  split at heq
  · cases heq; exact h
  · split at heq
    · next lang hfence =>
      have hl := fenceTag_parts hfence
      subst hl
      simp only [] at heq
      split at heq
      · cases heq
        rw [noPct_iff]
        intro x hx
        rcases List.mem_append.mp hx with hx1 | hx2
        · rcases List.mem_cons.mp hx1 with rfl | hx3
          · decide
          · rcases List.mem_cons.mp hx3 with rfl | hx4
            · decide
            · rcases List.mem_singleton.mp hx4 with rfl; decide
        · exact (noPct_iff.mp h) x (List.drop_subset _ _ hx2)
      · cases heq; decide
    · generalize hTL : transformLine l = tl at heq
      split at heq
      · cases heq; exact h
      · cases heq
        rw [← hTL]
        exact transformLine_noPct l hT h

theorem convertLines_noPct :
    ∀ (ls : List (List Char)) (inCode : Bool),
      (ls.all fun l => noPct l && scanCleanTop mTriple l) = true →
      ((convertLines inCode ls).1.all noPct) = true := by
  intro ls
  induction ls with
  | nil => intro inCode _; rfl
  | cons l rest ih =>
    intro inCode h
    rw [List.all_cons, Bool.and_eq_true] at h
    rw [Bool.and_eq_true] at h
    obtain ⟨⟨h1, h2⟩, h3⟩ := h
    unfold convertLines
    cases hcl : convertLine inCode l with
    | mk l0 st =>
      cases hr : convertLines st rest with
      | mk ls0 st2 =>
        simp only [hcl, hr]
        rw [List.all_cons, Bool.and_eq_true]
        refine ⟨convertLine_noPct inCode l h2 h1 l0 st hcl, ?_⟩
        have := ih st h3
        rw [hr] at this
        exact this

theorem joinNL_noPct :
    ∀ ls : List (List Char), (ls.all noPct) = true → noPct (joinNL ls) = true := by
  intro ls
  induction ls with
  | nil => intro _; rfl
  | cons l rest ih =>
    intro h
    rw [List.all_cons, Bool.and_eq_true] at h
    cases rest with
    | nil => exact h.1
    | cons l2 rest2 =>
      show noPct (l ++ '\n' :: joinNL (l2 :: rest2)) = true
      rw [noPct_iff]
      intro x hx
      rcases List.mem_append.mp hx with hx1 | hx2
      · exact (noPct_iff.mp h.1) x hx1
      · rcases List.mem_cons.mp hx2 with rfl | hx3
        · decide
        · exact (noPct_iff.mp (ih h.2)) x hx3

theorem convert_pctSafe (s : String) (h : pctSafe s = true) :
    noPct (convert s).toList = true := by
  unfold pctSafe at h
  simp only [Bool.and_eq_true] at h
  obtain ⟨hT, hQ⟩ := h
  unfold convert Converter.convertL Converter.convertFull
  by_cases he : s.toList = []
  · rw [he]
    rfl
  · have he' : s.toList.isEmpty = false := by
      cases hl : s.toList
      · exact absurd hl he
      · rfl
    simp only [he', Bool.false_eq_true, if_false,
      convertTablesL_free (pyStrip s.toList) hT, Converter.init,
      List.foldl_nil, if_true]
    exact joinNL_noPct _ (convertLines_noPct (splitNL (pyStrip s.toList)) false hQ)

theorem pfx_mem : ∀ (p t : List Char), pfx p t = true → ∀ x ∈ p, x ∈ t := by
  intro p
  induction p with
  | nil => intro t _ x hx; exact absurd hx (List.not_mem_nil x)
  | cons a as ih =>
    intro t hp x hx
    cases t with
    | nil => exact absurd hp (by simp [pfx])
    | cons b bs =>
      unfold pfx at hp
      rw [Bool.and_eq_true] at hp
      have hab : a = b := of_decide_eq_true hp.1
      rcases List.mem_cons.mp hx with rfl | hx2
      · rw [hab]; exact List.mem_cons_self _ _
      · exact List.mem_cons_of_mem _ (ih bs hp.2 x hx2)

theorem infixOf_false {p : List Char} (hp : '%' ∈ p) :
    ∀ t : List Char, noPct t = true → infixOf p t = false := by
  intro t
  induction t with
  | nil =>
    intro _
    unfold infixOf
    cases p with
    | nil => exact absurd hp (List.not_mem_nil _)
    | cons a as => rfl
  | cons c rest ih =>
    intro h
    unfold infixOf
    have h1 : pfx p (c :: rest) = false := by
      cases hpf : pfx p (c :: rest)
      · rfl
      · exact absurd rfl ((noPct_iff.mp h) '%' (pfx_mem _ _ hpf '%' hp))
    rw [h1, ih (noPct_tail h)]
    rfl

theorem noArtifact_of_noPct {s : String} (h : noPct s.toList = true) :
    hasArtifact s = false := by
  unfold hasArtifact
  rw [infixOf_false (by decide) _ h, infixOf_false (by decide) _ h,
    infixOf_false (by decide) _ h]
  rfl

theorem pfx_take_drop : ∀ p l : List Char, pfx p l = true → l = p ++ l.drop p.length := by
  intro p
  induction p with
  | nil => intro l _; rfl
  | cons a as ih =>
    intro l hp
    cases l with
    | nil => exact absurd hp (by simp [pfx])
    | cons b bs =>
      unfold pfx at hp
      rw [Bool.and_eq_true] at hp
      have hab : a = b := of_decide_eq_true hp.1
      subst hab
      simpa using ih bs hp.2

theorem pfx_self_append : ∀ p t : List Char, pfx p (p ++ t) = true := by
  intro p
  induction p with
  | nil => intro t; rfl
  | cons a as ih =>
    intro t
    show (decide (a = a) && pfx as (as ++ t)) = true
    simp [ih t]

theorem fenceTag_shape {l tag : List Char} (h : fenceTag l = some tag) :
    l = fenceMarker ++ tag ∧ tag.all pyWordChar = true := by
  unfold fenceTag at h
  repeat' (first | simp only [] at h | split at h)
  all_goals try exact Option.noConfusion h
  cases h
  exact ⟨pfx_take_drop fenceMarker l (by assumption), by assumption⟩

theorem fence_not_placeholder {tag : List Char} :
    isPlaceholderLine (fenceMarker ++ tag) = false := by
  unfold isPlaceholderLine
  have hh : placeholderHead = '%' :: "%TABLE_PLACEHOLDER_".toList := rfl
  have hb : fenceMarker ++ tag = btick :: (btick :: btick :: tag) := rfl
  rw [hh, hb]
  have hne : ¬ (('%' : Char) = btick) := by decide
  unfold pfx
  simp [hne]

/-! ## The claims -/

/-- C1.  For every input string (and whatever the re-encoding outcome),
`convert` terminates and returns a string: the embedded pipeline is a total
function, and the fault path is caught inside `convert` rather than
escaping to the caller. -/
theorem c1_convert_total (s : String) (ok : Bool) :
    ∃ t : String, convert s = t ∧ ∃ u : String, convertWithEncode ok s = u :=
  ⟨convert s, rfl, convertWithEncode ok s, rfl⟩

/-- C2 counterexample.  When the re-encoding step faults, `convert` does
not return the caller's exact input: the `except` handler returns the
rebound local `markdown`, which is already stripped and table-substituted —
here a bare placeholder token. -/
theorem c2_counterexample :
    convertWithEncode false " | A |\n|---|" ≠ " | A |\n|---|" ∧
      hasArtifact (convertWithEncode false " | A |\n|---|") = true := by
  constructor
  · decide
  · decide

/-- C2 (amended).  If an internal fault occurs at the re-encoding step, the
top-level handler catches it and returns the current value of the local
`markdown` variable: the input stripped of surrounding whitespace with
every table block already replaced by its placeholder token — not
necessarily the string the caller passed in. -/
theorem c2_amended (s : String) (h : s ≠ "") :
    convertWithEncode false s = faultFallback s := by
  unfold convertWithEncode Converter.convertFull faultFallback
  obtain ⟨d⟩ := s
  have he : (String.mk d).toList.isEmpty = false := by
    cases d with
    | nil => exact absurd rfl h
    | cons a t => rfl
  simp only [he, Bool.false_eq_true, if_false]

/-- C2 witness. -/
theorem c2_amended_witness : convertWithEncode false "  x" = faultFallback "  x" :=
  c2_amended "  x" (by decide)

/-- C3 counterexample.  The `in_code_block` flag is never reset by
`convert`: after a first call whose input is an unmatched code fence, a
second call on the same instance passes its whole input through untouched
instead of converting the heading. -/
theorem c3_counterexample :
    ((((Converter.init.convertL "```".toList).2).convertL "# Title".toList).1).asString
        = "# Title" ∧
      ((Converter.init.convertL "# Title".toList).1).asString = "*Title*" ∧
      ("# Title" : String) ≠ "*Title*" := by
  refine ⟨by decide, by decide, by decide⟩

/-- C3 (amended).  Only the placeholder map is reset per call; the
code-block flag persists across calls on the same instance.  Whenever the
flag is false at the start of a call (in particular on a fresh instance,
which is what the endpoint creates for every request), the call's result
depends only on its own argument: it coincides with the result of a fresh
instance regardless of the leftover placeholder map. -/
theorem c3_amended (c : Converter) (md : List Char) (h : c.in_code_block = false) :
    (c.convertL md).1 = (Converter.init.convertL md).1 := by
  unfold Converter.convertL Converter.convertFull
  obtain ⟨ic, tr⟩ := c
  simp only at h
  subst h
  by_cases hmd : md.isEmpty = true
  · simp [hmd]
  · have hmd' : md.isEmpty = false := by revert hmd; cases md.isEmpty <;> simp
    simp only [hmd', Bool.false_eq_true, if_false, Converter.init]

/-- C3 witness. -/
theorem c3_amended_witness :
    ((⟨false, [("k".toList, "v".toList)]⟩ : Converter).convertL "# T".toList).1
      = (Converter.init.convertL "# T".toList).1 :=
  c3_amended ⟨false, [("k".toList, "v".toList)]⟩ "# T".toList rfl

/-- C4.  Inside a fenced block every non-fence line is emitted with zero
transformation (placeholder-shaped lines included) and the flag stays on; a
fence line toggles the flag; an opening fence is emitted as the whole line
(keeping its language tag), while a closing fence is emitted as a bare
triple backtick regardless of any tag it carried. -/
theorem c4_code_fence (l : List Char) :
    (fenceTag l = none → convertLine true l = (l, true)) ∧
    (∀ tag, fenceTag l = some tag →
      convertLine false l = (l, true) ∧ convertLine true l = (fenceMarker, false)) := by
  constructor
  · intro hf
    unfold convertLine
    split
    · rfl
    · rw [hf]
      rfl
  · intro tag hf
    obtain ⟨hshape, hall⟩ := fenceTag_shape hf
    have hnp : isPlaceholderLine l = false := by rw [hshape]; exact fence_not_placeholder
    constructor
    · unfold convertLine
      rw [hnp]
      simp only [Bool.false_eq_true, if_false, hf]
      cases htag : tag.isEmpty with
      | true =>
        have : tag = [] := by
          cases tag
          · rfl
          · exact absurd htag (by simp)
        subst this
        simp [hshape]
      | false => simp [htag, hshape]
    · unfold convertLine
      rw [hnp]
      simp [hf]

/-- C4 witness. -/
theorem c4_witness :
    convertLine true "# not converted".toList = ("# not converted".toList, true) ∧
      convertLine false "```py".toList = ("```py".toList, true) ∧
      convertLine true "```py".toList = (fenceMarker, false) :=
  ⟨(c4_code_fence "# not converted".toList).1 (by decide),
   ((c4_code_fence "```py".toList).2 "py".toList (by decide)).1,
   ((c4_code_fence "```py".toList).2 "py".toList (by decide)).2⟩

/-- C5.  The canonical table round trip: header cells are trimmed, bolded
and joined by `" | "`, the data row is trimmed and joined without bold,
rows are joined by a newline, and the placeholder is substituted back
before return. -/
theorem c5_table_roundtrip :
    convert "| A | B |\n|---|---|\n| 1 | 2 |" = "*A* | *B*\n1 | 2" := by decide

/-- C6.  Emphasis conversion: double asterisks become single (bold), single
asterisks become underscores (italic), triple emphasis resolves to bold
wrapping italic via the sentinel, and the nested case corrupts neither
marker. -/
theorem c6_emphasis :
    convert "**bold**" = "*bold*" ∧ convert "*italic*" = "_italic_" ∧
      convert "***both***" = "*_both_*" ∧
      convert "**bold *and* italic**" = "*bold _and_ italic*" := by
  refine ⟨by decide, by decide, by decide, by decide⟩

/-- C7 counterexample.  A markdown-free input whose first line carries
trailing whitespace: `convert` right-strips every line, so the output
differs from `s.strip()`. -/
theorem c7_counterexample :
    plainInput "a \nb" = true ∧ convert "a \nb" ≠ pyStripStr "a \nb" := by
  constructor
  · decide
  · decide

/-- C7 (amended).  For every input in which no rule pattern, fence marker
or table block matches anywhere, `convert(s)` equals `s.strip()` with
trailing whitespace additionally removed from every line (the per-line
`rstrip` of `_convert_line`). -/
theorem c7_amended (s : String) (h : plainInput s = true) :
    convert s = (joinNL ((splitNL (pyStrip s.toList)).map pyRstrip)).asString :=
  convert_plain s h

/-- C7 witness. -/
theorem c7_witness :
    convert "plain text" =
      (joinNL ((splitNL (pyStrip "plain text".toList)).map pyRstrip)).asString :=
  c7_amended "plain text" (by decide)

/-- C8 counterexample.  A line that is already shaped like a table
placeholder passes through `_convert_line` verbatim and is not a key of
the (empty) replacement map, so the returned string still contains the
literal `%%TABLE_PLACEHOLDER_` token — the universal no-artifact claim is
false. -/
theorem c8_counterexample :
    hasArtifact (convert "%%TABLE_PLACEHOLDER_0%%") = true := by decide

/-- C8 (amended).  Placeholder resolution is not unconditional: input that
is itself placeholder-shaped survives to the output, and a triple-emphasis
sentinel can leak when image syntax overlaps it.  What does hold: for
every input with no percent character, no triple-emphasis match and no
table block, the output contains no placeholder artifact (it contains no
percent character at all); and the canonical table input resolves its
placeholder completely. -/
theorem c8_amended :
    (∀ s : String, pctSafe s = true → hasArtifact (convert s) = false) ∧
      hasArtifact (convert "| A | B |\n|---|---|\n| 1 | 2 |") = false := by
  constructor
  · intro s h
    exact noArtifact_of_noPct (convert_pctSafe s h)
  · decide

/-- C8 witness. -/
theorem c8_amended_witness :
    hasArtifact (convert "**bold** and [x](http://u)") = false :=
  c8_amended.1 "**bold** and [x](http://u)" (by decide)

/-- C9.  A fence marker is recognized exactly when the whole line is a
triple backtick followed by word characters; any other line (leading
whitespace, trailing whitespace, a non-word tag character) leaves the
code-block flag untouched and is processed as an ordinary line. -/
theorem c9_fence_recognition :
    (∀ l tag : List Char, fenceTag l = some tag ↔
      (l = fenceMarker ++ tag ∧ tag.all pyWordChar = true)) ∧
    (∀ (inCode : Bool) (l : List Char), isPlaceholderLine l = false →
      fenceTag l = none →
      convertLine inCode l = ((if inCode then l else transformLine l), inCode)) := by
  constructor
  · intro l tag
    constructor
    · exact fenceTag_shape
    · rintro ⟨rfl, hall⟩
      unfold fenceTag
      rw [if_pos (pfx_self_append fenceMarker tag)]
      have hdrop : (fenceMarker ++ tag).drop 3 = tag := rfl
      simp [hdrop, hall]
  · intro inCode l hnp hf
    unfold convertLine
    rw [hnp]
    simp only [Bool.false_eq_true, if_false, hf]
    cases inCode
    · simp
    · simp

/-- C9 witness. -/
theorem c9_witness :
    convertLine false " ```".toList
        = ((if false then " ```".toList else transformLine " ```".toList), false) ∧
      convertLine true "``` ".toList
        = ((if true then "``` ".toList else transformLine "``` ".toList), true) ∧
      (fenceTag "```a-b".toList = some "a-b".toList ↔
        ("```a-b".toList = fenceMarker ++ "a-b".toList ∧
          ("a-b".toList).all pyWordChar = true)) :=
  ⟨c9_fence_recognition.2 false " ```".toList (by decide) (by decide),
   c9_fence_recognition.2 true "``` ".toList (by decide) (by decide),
   c9_fence_recognition.1 "```a-b".toList "a-b".toList⟩

/-- C10.  Placeholder passthrough is purely shape-based and takes
precedence over everything else: any line starting with
`%%TABLE_PLACEHOLDER_` and ending with `%%` is returned unchanged by
`_convert_line`, whatever the code-block flag (the embedded
`convertLine` takes no placeholder map at all, so membership in the map
is irrelevant, matching the source). -/
theorem c10_placeholder_passthrough (inCode : Bool) (l : List Char)
    (h : isPlaceholderLine l = true) : convertLine inCode l = (l, inCode) := by
  unfold convertLine
  rw [h]
  rfl

/-- C10 witness: a user-supplied line that is not a key of any map, inside
a code block. -/
theorem c10_witness :
    convertLine true "%%TABLE_PLACEHOLDER_notakey%%".toList
      = ("%%TABLE_PLACEHOLDER_notakey%%".toList, true) :=
  c10_placeholder_passthrough true "%%TABLE_PLACEHOLDER_notakey%%".toList (by decide)

end SlackMd
